import Mathlib

/-!
# feeds2imap: message construction and IMAP delivery (`imap.go`)

A shallow embedding of `imap.go`: the template rendering of `FormatContent`,
the message assembly of `NewMessage`, the session opening of `newIMAPClient`
and the delivery loop of `AppendNewItemsViaIMAP`.

Conventions of the embedding

* Go strings are modelled as Lean `String`s, i.e. as sequences of Unicode
  characters (well-formed UTF-8); functions that walk a string work on its
  character list.
* The process-wide `viper` configuration is the record `Config`, read-only
  during a run.
* Calls that leave the program (the mail writer, the template engine's
  `Execute`, the IMAP client, the wall clock) take their outcome from an
  explicit environment record and are logged, with their arguments, in a call
  trace.
* Panics are modelled (`BuildResult.panicked`, `Outcome.panicked`): the
  dereference of a nil `PublishedParsed`, and the `Close` that `NewMessage`
  defers on a writer before it looks at the error of the call that was to
  create it; a creation call that reports an error hands back a nil writer.
  Deferred calls still run while a panic unwinds.
* `*gofeed.Item` pointers are addresses into a `Heap`, so that the assignment
  `entry.Item.PublishedParsed = &t` is visible to later readers of that item;
  every entry of the input carries a non-nil pointer.
* `ItemsWithFolders` is declared outside `imap.go`; it is taken to be a slice
  of pairs of a `*gofeed.Item` and a folder name, ranged over in order.
* `log.Printf` / `log.Println` output is not modelled.
* The functions of Go's standard library that decide the rendered text
  (`html/template` escapers, `strings.Title`) are transcribed from the
  standard library; the Unicode property tables they consult for non-ASCII
  characters are a parameter (`UnicodeTables`).
-/

namespace Feeds2Imap

/-! ## Basic types -/

/-- Go `error` values (non-nil); `Option Error` is a Go `error`. -/
abbrev Error := String

/-- A `time.Time` instant, as a count of nanoseconds since the zero `Time`. -/
abbrev Time := Int

/-- `gofeed.Person`. -/
structure Person where
  Name : String
  Email : String
deriving DecidableEq, Repr

/-- The fields of `gofeed.Item` that `imap.go` reads. -/
structure Item where
  Link : String
  Title : String
  Author : Option Person
  Content : String
  Description : String
  PublishedParsed : Option Time
deriving DecidableEq, Repr

/-- The `viper` keys read by `imap.go`. -/
structure Config where
  fromName : String
  fromEmail : String
  toName : String
  toEmail : String
  host : String
  port : Int
  username : String
  password : String
  debug : Bool
  folderCapitalize : Bool
  folderPrefix : String
deriving DecidableEq, Repr

/-- Unicode property tables of Go's `unicode` package, consulted only for
characters above U+007F. -/
structure UnicodeTables where
  /-- `unicode.To(unicode.TitleCase, r)`. -/
  toTitle : Char → Char
  /-- `unicode.IsLetter`. -/
  isLetter : Char → Bool
  /-- `unicode.IsDigit`. -/
  isDigit : Char → Bool
  /-- `unicode.IsSpace`. -/
  isSpace : Char → Bool
  /-- `inFoldOrbit a b`: repeated `unicode.SimpleFold` leads from `a` to `b`. -/
  inFoldOrbit : Char → Char → Bool

/-- Tables under which no character above U+007F is a letter, digit or space
and none has a case variant. -/
def UnicodeTables.ascii : UnicodeTables where
  toTitle := fun c => c
  isLetter := fun _ => false
  isDigit := fun _ => false
  isSpace := fun _ => false
  inFoldOrbit := fun _ _ => false

/-- `fmt.Sprintf("%s %s", a, b)`. -/
def sprintfSS (a b : String) : String := a ++ " " ++ b

/-! ## `strings.Title` -/

/-- `unicode.ToTitle`: ASCII lower-case letters are moved to upper case, other
ASCII characters are unchanged, the rest is looked up in the tables. -/
def ToTitle (U : UnicodeTables) (r : Char) : Char :=
  if r.toNat ≤ 0x7F then
    if 'a' ≤ r ∧ r ≤ 'z' then Char.ofNat (r.toNat - ('a'.toNat - 'A'.toNat)) else r
  else U.toTitle r

/-- `strings.isSeparator`: whether the rune could mark a word boundary. -/
def isSeparator (U : UnicodeTables) (r : Char) : Bool :=
  if r.toNat ≤ 0x7F then
    if '0' ≤ r ∧ r ≤ '9' then false
    else if 'a' ≤ r ∧ r ≤ 'z' then false
    else if 'A' ≤ r ∧ r ≤ 'Z' then false
    else if r = '_' then false
    else true
  else if U.isLetter r || U.isDigit r then false
  else U.isSpace r

/-- The closure passed to `strings.Map` by `strings.Title`, with its captured
variable `prev` made an argument. -/
def titleMap (U : UnicodeTables) : Char → List Char → List Char
  | _, [] => []
  | prev, r :: rest =>
    (if isSeparator U prev then ToTitle U r else r) :: titleMap U r rest

/-- `strings.Title`. -/
def Title (U : UnicodeTables) (s : String) : String :=
  String.mk (titleMap U ' ' s.data)

/-! ## `html/template` escapers -/

/-- `html/template.contentType` of a pipeline value. -/
inductive ContentType
  | plain
  | html
deriving DecidableEq, Repr

/-- `htmlReplacementTable`: the replacement of a character, if it has one. -/
def htmlReplacementTable (c : Char) : Option String :=
  if c = Char.ofNat 0 then some (String.singleton (Char.ofNat 0xFFFD))
  else if c = '"' then some "&#34;"
  else if c = '&' then some "&amp;"
  else if c = Char.ofNat 39 then some "&#39;"
  else if c = '+' then some "&#43;"
  else if c = '<' then some "&lt;"
  else if c = '>' then some "&gt;"
  else none

/-- `htmlReplacer(s, htmlReplacementTable, true)`. -/
def htmlReplacer (s : String) : String :=
  String.mk (s.data.flatMap fun c =>
    match htmlReplacementTable c with
    | some repl => repl.data
    | none => [c])

/-- `htmlEscaper`: escapes for inclusion in HTML text; a `template.HTML`
value passes unchanged. -/
def htmlEscaper (s : String) (t : ContentType) : String :=
  match t with
  | .html => s
  | .plain => htmlReplacer s

/-- `attrEscaper` on a plain string (the value reaching it from the URL
normaliser is a plain string). -/
def attrEscaper (s : String) : String := htmlReplacer s

/-- The rune comparison inside `strings.EqualFold`. -/
def foldEqRune (U : UnicodeTables) (a b : Char) : Bool :=
  if a = b then true
  else
    let sr := if b < a then b else a
    let tr := if b < a then a else b
    if tr.toNat < 0x80 then
      decide ('A' ≤ sr ∧ sr ≤ 'Z' ∧ tr.toNat = sr.toNat + ('a'.toNat - 'A'.toNat))
    else U.inFoldOrbit sr tr

/-- `strings.EqualFold`. -/
def EqualFold (U : UnicodeTables) : List Char → List Char → Bool
  | [], [] => true
  | a :: s, b :: t => foldEqRune U a b && EqualFold U s t
  | _, _ => false

/-- `strings.Cut(s, ":")`: the text before the first colon, if there is one. -/
def cutColon : List Char → Option (List Char)
  | [] => none
  | c :: rest =>
    if c = ':' then some []
    else (cutColon rest).map (c :: ·)

/-- `isSafeURL`: a relative URL, or one whose protocol is http, https or
mailto. -/
def isSafeURL (U : UnicodeTables) (s : String) : Bool :=
  match cutColon s.data with
  | some protocol =>
    if !protocol.contains '/' then
      if !EqualFold U protocol "http".data && !EqualFold U protocol "https".data
          && !EqualFold U protocol "mailto".data then false
      else true
    else true
  | none => true

/-- `filterFailsafe`. -/
def filterFailsafe : String := "ZgotmplZ"

/-- `urlFilter` (the value is never a `template.URL` here). -/
def urlFilter (U : UnicodeTables) (s : String) : String :=
  if !isSafeURL U s then "#" ++ filterFailsafe else s

/-- `isHex`. -/
def isHex (c : Char) : Bool :=
  decide (('0' ≤ c ∧ c ≤ '9') ∨ ('a' ≤ c ∧ c ≤ 'f') ∨ ('A' ≤ c ∧ c ≤ 'F'))

/-- The UTF-8 bytes of a character. -/
def utf8Bytes (c : Char) : List Nat :=
  let n := c.toNat
  if n < 0x80 then [n]
  else if n < 0x800 then [0xC0 + n / 64, 0x80 + n % 64]
  else if n < 0x10000 then [0xE0 + n / 4096, 0x80 + n / 64 % 64, 0x80 + n % 64]
  else [0xF0 + n / 262144, 0x80 + n / 4096 % 64, 0x80 + n / 64 % 64, 0x80 + n % 64]

/-- One lower-case hexadecimal digit. -/
def hexDigit (n : Nat) : Char :=
  if n < 10 then Char.ofNat ('0'.toNat + n) else Char.ofNat ('a'.toNat + (n - 10))

/-- `fmt.Fprintf(b, "%%%02x", c)` for one byte. -/
def percentByte (b : Nat) : List Char := ['%', hexDigit (b / 16), hexDigit (b % 16)]

/-- Whether `processURLOnto`, normalising, leaves the byte as it is; `rest` is
what follows it. -/
def urlByteKept (c : Char) (rest : List Char) : Bool :=
  if c ∈ ['!', '#', '$', '&', '*', '+', ',', '/', ':', ';', '=', '?', '@', '[', ']'] then true
  else if c ∈ ['-', '.', '_', '~'] then true
  else if c = '%' then
    match rest with
    | h1 :: h2 :: _ => isHex h1 && isHex h2
    | _ => false
  else decide (('a' ≤ c ∧ c ≤ 'z') ∨ ('A' ≤ c ∧ c ≤ 'Z') ∨ ('0' ≤ c ∧ c ≤ '9'))

/-- `processURLOnto(s, true, b)`: the bytes that are not kept are written as
percent escapes. -/
def processURL : List Char → List Char
  | [] => []
  | c :: rest =>
    (if urlByteKept c rest then [c] else (utf8Bytes c).flatMap percentByte)
      ++ processURL rest

/-- `urlNormalizer` on a plain string. -/
def urlNormalizer (s : String) : String := String.mk (processURL s.data)

/-! ## `mailTemplate` and `FormatContent` -/

/-- `templatePayload`. -/
structure templatePayload where
  Link : String
  Title : String
  Author : String
  /-- Of type `template.HTML`. -/
  Content : String
deriving DecidableEq, Repr

/-- The fields a template action can name. -/
inductive Field
  | Link
  | Title
  | Author
  | Content
deriving DecidableEq, Repr

/-- Where an action stands in the template, which decides its escapers. -/
inductive Context
  /-- Inside the double-quoted `href` attribute, at the start of the URL. -/
  | hrefAttr
  /-- In HTML text. -/
  | text
deriving DecidableEq, Repr

/-- A parsed template: literal text and actions. -/
inductive Node
  | text (s : String)
  | action (f : Field) (ctx : Context)
deriving DecidableEq, Repr

/-- The template `mailTemplate`, split at its four actions. -/
def mailTemplate : List Node :=
  [ .text "<table>\n<tbody>\n<tr><td>\n<a href=\"",
    .action .Link .hrefAttr,
    .text "\">",
    .action .Title .text,
    .text "</a> ",
    .action .Author .text,
    .text "\n<hr>\n</td></tr>\n<tr><td>\n",
    .action .Content .text,
    .text "\n</td></tr>\n</tbody>\n</table>" ]

/-- The value of a payload field with its content type: `Content` is a
`template.HTML`, the other fields are plain strings. -/
def templatePayload.field (p : templatePayload) : Field → String × ContentType
  | .Link => (p.Link, .plain)
  | .Title => (p.Title, .plain)
  | .Author => (p.Author, .plain)
  | .Content => (p.Content, .html)

/-- The escaper pipeline `html/template` attaches to an action. -/
def escape (U : UnicodeTables) (ctx : Context) (v : String × ContentType) : String :=
  match ctx with
  | .hrefAttr => attrEscaper (urlNormalizer (urlFilter U v.1))
  | .text => htmlEscaper v.1 v.2

/-- What one node writes. -/
def Node.render (U : UnicodeTables) (p : templatePayload) : Node → String
  | .text s => s
  | .action f ctx => escape U ctx (p.field f)

/-- `mailTemplate.Execute(&buffer, payload)` when it reports no error: the
text written to the buffer. -/
def execute (U : UnicodeTables) (p : templatePayload) : String :=
  mailTemplate.foldl (fun acc n => acc ++ n.render U p) ""

/-- `FormatContent`.  `execErr` is the error reported by
`mailTemplate.Execute`, if any. -/
def FormatContent (U : UnicodeTables) (execErr : Option Error) (item : Item) :
    String × Option Error :=
  let payload : templatePayload :=
    { Link := item.Link
      Title := item.Title
      Author :=
        match item.Author with
        | some a => sprintfSS a.Name a.Email
        | none => ""
      Content := if item.Content.length > 0 then item.Content else item.Description }
  match execErr with
  | some err => ("", some err)
  | none => (execute U payload, none)

/-! ## `NewMessage` -/

/-- `mail.Address`. -/
structure MailAddress where
  Name : String
  Address : String
deriving DecidableEq, Repr

/-- The header `h` that `NewMessage` fills in. -/
structure Header where
  ContentType : String × List (String × String)
  Date : Time
  From : List MailAddress
  To : List MailAddress
  Subject : String
deriving DecidableEq, Repr

/-- The message `NewMessage` composes in its buffer `b`: the header handed to
`mail.CreateWriter`, the header of the single text part and the text handed to
`io.WriteString`. -/
structure Message where
  header : Header
  partContentType : String × List (String × String)
  body : String
deriving DecidableEq, Repr

/-- Outcomes of the calls `NewMessage` makes into the mail and template
libraries: the `error` each one reports.  `NewMessage` does not look at the
last three; they only appear in its call log. -/
structure BuildEnv where
  createWriter : Option Error
  createSingleText : Option Error
  execute : Option Error
  writeString : Option Error
  closeHTML : Option Error
  closeMessage : Option Error
deriving DecidableEq, Repr

/-- A call into the mail library, with what it reported. -/
inductive MailCall
  | createWriter (h : Header) (res : Option Error)
  | createSingleText (contentType : String × List (String × String)) (res : Option Error)
  | writeString (content : String) (res : Option Error)
  | closeHTML (res : Option Error)
  | closeMessage (res : Option Error)
deriving DecidableEq, Repr

/-- How a call of `NewMessage` ends: it returns `(b, nil)`, or `(b, err)` with
`err` non-nil, where the caller does not read `b`, or it panics. -/
inductive BuildResult
  | ok (msg : Message)
  | error (err : Error)
  | panicked
deriving DecidableEq, Repr

/-- The `error` component of the return value, when the call returns. -/
def BuildResult.err : BuildResult → Option Error
  | .ok _ => none
  | .error err => some err
  | .panicked => none

/-- A call of `NewMessage`: how it ended and the calls into the mail library
that ran to completion, deferred ones included, in the order they ran. -/
structure Built where
  result : BuildResult
  calls : List MailCall
deriving DecidableEq, Repr

/-- `NewMessage`.  It panics when `*item.PublishedParsed` dereferences nil
(line 81), and when `mail.CreateWriter` or `CreateSingleText` reports an
error: the `Close` deferred at line 87 or 95, ahead of the error check, is
then a call on a nil writer. -/
def NewMessage (U : UnicodeTables) (cfg : Config) (lib : BuildEnv) (item : Item) : Built :=
  let fromName :=
    match item.Author with
    | some a => sprintfSS a.Name a.Email
    | none => cfg.fromName
  let from_ : List MailAddress := [⟨fromName, cfg.fromEmail⟩]
  let to_ : List MailAddress := [⟨cfg.toName, cfg.toEmail⟩]
  let mediaParams : List (String × String) := [("charset", "utf-8")]
  match item.PublishedParsed with
  | none => ⟨.panicked, []⟩
  | some date =>
    let h : Header :=
      { ContentType := ("multipart/alternative", mediaParams)
        Date := date
        From := from_
        To := to_
        Subject := item.Title }
    let createWriter := MailCall.createWriter h lib.createWriter
    match lib.createWriter with
    | some _ =>
      -- `return b, err` runs the deferred messageWriter.Close() on a nil writer
      ⟨.panicked, [createWriter]⟩
    | none =>
      -- defer messageWriter.Close()
      let closeMessage := MailCall.closeMessage lib.closeMessage
      let htmlHeader : String × List (String × String) := ("text/html", mediaParams)
      let createSingleText := MailCall.createSingleText htmlHeader lib.createSingleText
      match lib.createSingleText with
      | some _ =>
        -- htmlWriter is nil: its deferred Close panics, messageWriter.Close() still runs
        ⟨.panicked, [createWriter, createSingleText, closeMessage]⟩
      | none =>
        -- defer htmlWriter.Close()
        let closeHTML := MailCall.closeHTML lib.closeHTML
        match FormatContent U lib.execute item with
        | (_, some err) =>
          ⟨.error err, [createWriter, createSingleText, closeHTML, closeMessage]⟩
        | (content, none) =>
          let writeString := MailCall.writeString content lib.writeString
          ⟨.ok ⟨h, htmlHeader, content⟩,
            [createWriter, createSingleText, writeString, closeHTML, closeMessage]⟩

/-! ## The IMAP session -/

/-- A call on the IMAP client (or the dial that creates it), with its
arguments and the `error` it reported. -/
inductive IMAPCall
  | dialTLS (hostPort : String) (res : Option Error)
  | login (username password : String) (res : Option Error)
  | create (folder : String) (res : Option Error)
  | append (folder : String) (flags : List String) (date : Time) (literal : Message)
      (res : Option Error)
  | logout (res : Option Error)
deriving DecidableEq, Repr

/-- What the world answers while one assignment is processed. -/
structure IterEnv where
  /-- The reading `time.Now()` gives, should it be asked. -/
  now : Time
  /-- What `client.Create` reports. -/
  create : Option Error
  /-- What the calls of `NewMessage` report. -/
  mail : BuildEnv
  /-- What `client.Append` reports. -/
  append : Option Error
deriving DecidableEq, Repr

/-- What the world answers during one run of `AppendNewItemsViaIMAP`;
`iter i` is for the assignment at position `i` (from 0) of the input. -/
structure Env where
  dial : Option Error
  login : Option Error
  iter : Nat → IterEnv
  logout : Option Error

/-- `newIMAPClient`: the calls made and the returned `error`. -/
def newIMAPClient (cfg : Config) (env : Env) : List IMAPCall × Option Error :=
  let hostPort := cfg.host ++ ":" ++ toString cfg.port
  match env.dial with
  | some err => ([.dialTLS hostPort (some err)], some err)
  | none =>
    match env.login with
    | some err =>
      ([.dialTLS hostPort none, .login cfg.username cfg.password (some err)], some err)
    | none => ([.dialTLS hostPort none, .login cfg.username cfg.password none], none)

/-! ## `AppendNewItemsViaIMAP` -/

/-- Address of a `gofeed.Item`. -/
abbrev Ptr := Nat

/-- The items the pointers of the input refer to. -/
abbrev Heap := Ptr → Item

/-- One element of `ItemsWithFolders`: a `*gofeed.Item` and the raw folder
name. -/
structure Entry where
  Item : Ptr
  Folder : String
deriving DecidableEq, Repr

/-- How a function call ends. -/
inductive Outcome
  | returned (err : Option Error)
  | panicked
deriving DecidableEq, Repr

/-- Lines 140 to 143: an item without a publication time is given the
clock reading `now`, through the pointer. -/
def AppendNewItemsViaIMAP.stamp (heap : Heap) (p : Ptr) (now : Time) : Heap :=
  if (heap p).PublishedParsed = none then
    Function.update heap p { heap p with PublishedParsed := some now }
  else heap

/-- The folder path of lines 145 to 149:
`fmt.Sprintf("%s/%s", prefix, folderName)`. -/
def AppendNewItemsViaIMAP.folder (U : UnicodeTables) (cfg : Config) (raw : String) : String :=
  let folderName := if cfg.folderCapitalize then Title U raw else raw
  cfg.folderPrefix ++ "/" ++ folderName

/-- One pass through the body of the `for` loop: the heap afterwards, the IMAP
calls made, and how the function ends if the pass leaves the loop (`none` when
the loop goes on to the next entry). -/
def AppendNewItemsViaIMAP.body (U : UnicodeTables) (cfg : Config) (e : IterEnv)
    (entry : Entry) (heap : Heap) : Heap × List IMAPCall × Option Outcome :=
  let heap₁ : Heap := AppendNewItemsViaIMAP.stamp heap entry.Item e.now
  let folder := AppendNewItemsViaIMAP.folder U cfg entry.Folder
  let create := IMAPCall.create folder e.create
  match (NewMessage U cfg e.mail (heap₁ entry.Item)).result with
  | .panicked => (heap₁, [create], some .panicked)
  | .error err => (heap₁, [create], some (.returned (some err)))
  | .ok msg =>
    match (heap₁ entry.Item).PublishedParsed with
    | none => (heap₁, [create], some .panicked)
    | some date =>
      let append := IMAPCall.append folder [] date msg e.append
      match e.append with
      | some err => (heap₁, [create, append], some (.returned (some err)))
      | none => (heap₁, [create, append], none)

/-- The `for` loop over the entries from position `i` on. -/
def AppendNewItemsViaIMAP.loop (U : UnicodeTables) (cfg : Config) (env : Nat → IterEnv) :
    Nat → List Entry → Heap → Heap × List IMAPCall × Outcome
  | _, [], heap => (heap, [], .returned none)
  | i, entry :: rest, heap =>
    match AppendNewItemsViaIMAP.body U cfg (env i) entry heap with
    | (heap₁, calls, some out) => (heap₁, calls, out)
    | (heap₁, calls, none) =>
      let r := AppendNewItemsViaIMAP.loop U cfg env (i + 1) rest heap₁
      (r.1, calls ++ r.2.1, r.2.2)

/-- One run: the heap it leaves, the IMAP calls in the order made, and how the
function ended. -/
structure Run where
  heap : Heap
  trace : List IMAPCall
  outcome : Outcome

/-- `AppendNewItemsViaIMAP`. -/
def AppendNewItemsViaIMAP (U : UnicodeTables) (cfg : Config) (env : Env)
    (items : List Entry) (heap : Heap) : Run :=
  match newIMAPClient cfg env with
  | (opened, some err) => ⟨heap, opened, .returned (some err)⟩
  | (opened, none) =>
    let r := AppendNewItemsViaIMAP.loop U cfg env.iter 0 items heap
    -- defer client.Logout(): runs when the function returns and when it panics
    ⟨r.1, opened ++ r.2.1 ++ [.logout env.logout], r.2.2⟩

/-! ## Vocabulary of the statements -/

/-- The rendered fragment as the specification describes it: the literal text
of `mailTemplate` with four strings put, unchanged, in the places of its
actions (anchor target, anchor text, author line, body). -/
def fragment (href text author body : String) : String :=
  "<table>\n<tbody>\n<tr><td>\n<a href=\"" ++ href ++ "\">" ++ text ++ "</a> " ++ author
    ++ "\n<hr>\n</td></tr>\n<tr><td>\n" ++ body ++ "\n</td></tr>\n</tbody>\n</table>"

/-- The characters `htmlReplacementTable` replaces. -/
def htmlSpecial : List Char := [Char.ofNat 0, '"', '&', Char.ofNat 39, '+', '<', '>']

/-- A character of a URL that neither the URL normaliser nor the attribute
escaper changes: an ASCII letter or digit or one of `- . _ ~ ! # $ * , / : ; = ? @ [ ]`. -/
def urlPlain (c : Char) : Bool := urlByteKept c [] && !(htmlSpecial.contains c)

/-- The error `NewMessage` returns under the given library outcomes: the
first one reported by the creation of the message writer, the creation of the
text part and the rendering. -/
def BuildEnv.failure (lib : BuildEnv) : Option Error :=
  match lib.createWriter with
  | some err => some err
  | none =>
    match lib.createSingleText with
    | some err => some err
    | none => lib.execute

/-- Whether `NewMessage` panics under the given library outcomes, the item
having a publication time: the creation of the message writer or of the text
part reports an error. -/
def BuildEnv.panics (lib : BuildEnv) : Bool :=
  lib.createWriter.isSome || lib.createSingleText.isSome

/-- How one pass of the loop leaves the function, if it does: a failed build
panics or returns its error, a refused `Append` returns its error. -/
def IterEnv.leaves (e : IterEnv) : Option Outcome :=
  match e.mail.failure with
  | some err => some (if e.mail.panics then .panicked else .returned (some err))
  | none =>
    match e.append with
    | some err => some (.returned (some err))
    | none => none

/-- The failure of one assignment: that of its message build, else that of
its `Append`. -/
def IterEnv.failure (e : IterEnv) : Option Error :=
  match e.mail.failure with
  | some err => some err
  | none => e.append

/-- The message of an item, dated `date`, as `NewMessage` hands it back when
it reports no error. -/
def composed (U : UnicodeTables) (cfg : Config) (item : Item) (date : Time) : Message :=
  { header :=
      { ContentType := ("multipart/alternative", [("charset", "utf-8")])
        Date := date
        From := [⟨match item.Author with
                  | some a => a.Name ++ " " ++ a.Email
                  | none => cfg.fromName, cfg.fromEmail⟩]
        To := [⟨cfg.toName, cfg.toEmail⟩]
        Subject := item.Title }
    partContentType := ("text/html", [("charset", "utf-8")])
    body := (FormatContent U none item).1 }

/-- Whether the call is a `Logout`. -/
def IMAPCall.isLogout : IMAPCall → Bool
  | .logout _ => true
  | _ => false

/-- Whether the call is an `Append`. -/
def IMAPCall.isAppend : IMAPCall → Bool
  | .append _ _ _ _ _ => true
  | _ => false

/-- The `Append` calls of a trace, in order. -/
def appendCalls (trace : List IMAPCall) : List IMAPCall := trace.filter IMAPCall.isAppend

/-- The same world with other answers to the `Create` calls. -/
def Env.withCreate (env : Env) (create : Nat → Option Error) : Env :=
  { env with iter := fun i => { env.iter i with create := create i } }

/-- Library outcomes without any error. -/
def okMail : BuildEnv := ⟨none, none, none, none, none, none⟩

/-- A configuration with default from-name "Digest", prefix "Feeds" and
capitalisation on. -/
def digestCfg : Config :=
  ⟨"Digest", "me@x", "You", "you@x", "imap.x", 993, "u", "p", false, true, "Feeds"⟩

/-- An item without author, published at instant 1700. -/
def anonItem : Item :=
  { Link := "http://x", Title := "Hello", Author := none,
    Content := "<p>hi</p>", Description := "", PublishedParsed := some 1700 }

/-- A world in which dial, login and every build succeed, every `Create`
reports an error, and the `Append` of the second assignment is refused. -/
def quotaEnv : Env :=
  { dial := none
    login := none
    iter := fun i => ⟨100 + i, some "exists", okMail, if i = 1 then some "quota" else none⟩
    logout := none }

/-- A world in which everything succeeds. -/
def calmEnv : Env :=
  { dial := none
    login := none
    iter := fun i => ⟨100 + i, none, okMail, none⟩
    logout := none }

/-- An item whose title and author contain an ampersand. -/
def ampItem : Item :=
  { Link := "http://x", Title := "Q&A", Author := some ⟨"A&B", "a@a.com"⟩,
    Content := "<p>hi</p>", Description := "", PublishedParsed := none }

/-- The item of the specification's first example scenario. -/
def helloItem : Item :=
  { Link := "http://x", Title := "Hello", Author := some ⟨"A", "a@a.com"⟩,
    Content := "<p>hi</p>", Description := "", PublishedParsed := none }

end Feeds2Imap

namespace Feeds2Imap

/-! ## `strings.Title` and the folder path -/

theorem FormatContent_none (U : UnicodeTables) (item : Item) :
    FormatContent U none item =
      (fragment (attrEscaper (urlNormalizer (urlFilter U item.Link)))
        (htmlReplacer item.Title)
        (htmlReplacer (match item.Author with
          | some a => sprintfSS a.Name a.Email
          | none => ""))
        (if item.Content.length > 0 then item.Content else item.Description), none) := by
  simp [FormatContent, execute, mailTemplate, Node.render, escape, templatePayload.field,
    htmlEscaper, fragment]

theorem htmlReplacer_clean (s : String) (h : ∀ c ∈ s.data, c ∉ htmlSpecial) :
    htmlReplacer s = s := by
  have key : ∀ l : List Char, (∀ c ∈ l, c ∉ htmlSpecial) →
      (l.flatMap fun c =>
        match htmlReplacementTable c with
        | some repl => repl.data
        | none => [c]) = l := by
    intro l
    induction l with
    | nil => intro _; rfl
    | cons c l ih =>
      intro hl
      have hc : c ∉ htmlSpecial := hl c (List.mem_cons_self _ _)
      have htab : htmlReplacementTable c = none := by
        simp only [htmlSpecial, List.mem_cons, List.mem_singleton, not_or, List.not_mem_nil,
          or_false] at hc
        obtain ⟨h0, h1, h2, h3, h4, h5, h6⟩ := hc
        simp [htmlReplacementTable, h0, h1, h2, h3, h4, h5, h6]
      rw [List.flatMap_cons, htab, ih (fun d hd => hl d (List.mem_cons_of_mem _ hd))]
      rfl
  unfold htmlReplacer
  rw [key s.data h]

theorem length_pos_iff_ne_empty (s : String) : s.length > 0 ↔ s ≠ "" := by
  rw [gt_iff_lt, String.length, List.length_pos, ne_eq, ne_eq, String.ext_iff]

theorem urlByteKept_of_nil (c : Char) (rest : List Char) (h : urlByteKept c [] = true) :
    urlByteKept c rest = true := by
  unfold urlByteKept at h ⊢
  split_ifs at h ⊢ <;> simp_all

theorem processURL_plain : ∀ l : List Char, (∀ c ∈ l, urlPlain c = true) → processURL l = l
  | [], _ => rfl
  | c :: rest, h => by
    have hc : urlPlain c = true := h c (List.mem_cons_self _ _)
    have hk : urlByteKept c rest = true := by
      apply urlByteKept_of_nil
      unfold urlPlain at hc
      exact (Bool.and_eq_true _ _ ▸ hc).1
    simp only [processURL, hk, if_true]
    rw [processURL_plain rest (fun d hd => h d (List.mem_cons_of_mem _ hd))]
    rfl

theorem not_special_of_urlPlain (c : Char) (h : urlPlain c = true) : c ∉ htmlSpecial := by
  unfold urlPlain at h
  have h2 := (Bool.and_eq_true _ _ ▸ h).2
  simpa using h2

/-- C4. With `Execute` reporting no error, `FormatContent` returns the
template text in which the body row holds, unchanged, `Content` when it is
non-empty and `Description` otherwise; the other three places hold the
escaped link, title and author line. -/
theorem body_verbatim (U : UnicodeTables) (item : Item) :
    FormatContent U none item =
      (fragment (escape U .hrefAttr (item.Link, .plain))
        (escape U .text (item.Title, .plain))
        (escape U .text
          (match item.Author with
            | some a => sprintfSS a.Name a.Email
            | none => "", .plain))
        (if item.Content ≠ "" then item.Content else item.Description), none) := by
  rw [FormatContent_none]
  by_cases h : item.Content = ""
  · have h0 : ¬ item.Content.length > 0 := fun hp => (length_pos_iff_ne_empty _).1 hp h
    simp [escape, htmlEscaper, h]
  · have h0 : item.Content.length > 0 := (length_pos_iff_ne_empty _).2 h
    simp [escape, htmlEscaper, h, h0]

set_option maxRecDepth 100000 in
/-- C5, counterexample. For the author named "A&B" with e-mail "a@a.com" the
rendered fragment cannot be read as the template text around the author line
"A&B a@a.com", whatever the other three places hold: the ampersand is written
as an entity. -/
theorem author_line_not_verbatim :
    ¬ ∃ href text body : String,
      FormatContent UnicodeTables.ascii none ampItem =
        (fragment href text "A&B a@a.com" body, none) := by
  rintro ⟨href, text, body, heq⟩
  have hin : "A&B".data <:+: (FormatContent UnicodeTables.ascii none ampItem).1.data := by
    rw [heq]
    refine ⟨("<table>\n<tbody>\n<tr><td>\n<a href=\"" ++ href ++ "\">" ++ text ++ "</a> ").data,
      (" a@a.com" ++ "\n<hr>\n</td></tr>\n<tr><td>\n" ++ body
        ++ "\n</td></tr>\n</tbody>\n</table>").data, ?_⟩
    simp [fragment]
  exact absurd hin (by decide)

/-- C5, as amended. The author line of the rendered fragment is the
text-escaped `Name + " " + Email` when the author is present and empty when
absent; it is `Name + " " + Email` itself whenever that string has none of
the characters NUL `"` `&` apostrophe `+` `<` `>`. -/
theorem author_line_escaped (U : UnicodeTables) (item : Item) :
    FormatContent U none item =
        (fragment (escape U .hrefAttr (item.Link, .plain))
          (escape U .text (item.Title, .plain))
          (match item.Author with
            | some a => htmlReplacer (a.Name ++ " " ++ a.Email)
            | none => "")
          (if item.Content.length > 0 then item.Content else item.Description), none)
      ∧ ∀ a : Person, item.Author = some a →
          (∀ c ∈ (a.Name ++ " " ++ a.Email).data, c ∉ htmlSpecial) →
          FormatContent U none item =
            (fragment (escape U .hrefAttr (item.Link, .plain))
              (escape U .text (item.Title, .plain))
              (a.Name ++ " " ++ a.Email)
              (if item.Content.length > 0 then item.Content else item.Description), none) := by
  have hmain : FormatContent U none item =
        (fragment (escape U .hrefAttr (item.Link, .plain))
          (escape U .text (item.Title, .plain))
          (match item.Author with
            | some a => htmlReplacer (a.Name ++ " " ++ a.Email)
            | none => "")
          (if item.Content.length > 0 then item.Content else item.Description), none) := by
    rw [FormatContent_none]
    cases hA : item.Author with
    | none =>
      have : htmlReplacer "" = "" := by decide
      simp [escape, htmlEscaper, this]
    | some a => simp [escape, htmlEscaper, sprintfSS]
  refine ⟨hmain, ?_⟩
  intro a ha hclean
  rw [hmain, ha]
  simp only
  rw [htmlReplacer_clean _ hclean]

/-- C5, the specification's first example: author "A" with e-mail "a@a.com"
gives the author line "A a@a.com". -/
theorem author_line_escaped_witness :
    helloItem.Author = some ⟨"A", "a@a.com"⟩
      ∧ (∀ c ∈ ("A" ++ " " ++ "a@a.com").data, c ∉ htmlSpecial)
      ∧ FormatContent UnicodeTables.ascii none helloItem =
          (fragment (escape UnicodeTables.ascii .hrefAttr (helloItem.Link, .plain))
            (escape UnicodeTables.ascii .text (helloItem.Title, .plain))
            ("A" ++ " " ++ "a@a.com")
            (if helloItem.Content.length > 0 then helloItem.Content
              else helloItem.Description), none) :=
  ⟨rfl, by decide,
    (author_line_escaped UnicodeTables.ascii helloItem).2 ⟨"A", "a@a.com"⟩ rfl (by decide)⟩

set_option maxRecDepth 100000 in
/-- C6, counterexample. For the title "Q&A" the rendered fragment cannot be
read as the template text around the link "http://x" and the anchor text
"Q&A", whatever the author line and the body are: the ampersand of the title
is written as an entity. -/
theorem link_title_not_verbatim :
    ¬ ∃ author body : String,
      FormatContent UnicodeTables.ascii none ampItem =
        (fragment ampItem.Link ampItem.Title author body, none) := by
  rintro ⟨author, body, heq⟩
  have hin : "Q&A".data <:+: (FormatContent UnicodeTables.ascii none ampItem).1.data := by
    rw [heq]
    refine ⟨("<table>\n<tbody>\n<tr><td>\n<a href=\"" ++ "http://x" ++ "\">").data,
      ("</a> " ++ author ++ "\n<hr>\n</td></tr>\n<tr><td>\n" ++ body
        ++ "\n</td></tr>\n</tbody>\n</table>").data, ?_⟩
    simp [fragment, ampItem]
  exact absurd hin (by decide)

/-- C6, as amended. The anchor text is the title with each of NUL `"` `&`
apostrophe `+` `<` `>` replaced by its entity, and the anchor target is the
link after the URL filter, the URL normaliser and the same replacement.  The
fragment holds exactly the link and exactly the title whenever the title has
none of those characters and the link passes the filter and consists of ASCII
letters, digits and `- . _ ~ ! # $ * , / : ; = ? @ [ ]`. -/
theorem link_title_escaped (U : UnicodeTables) (item : Item) :
    (∃ author body : String, FormatContent U none item =
        (fragment (htmlReplacer (urlNormalizer (urlFilter U item.Link)))
          (htmlReplacer item.Title) author body, none))
      ∧ ((∀ c ∈ item.Title.data, c ∉ htmlSpecial) → isSafeURL U item.Link = true →
          (∀ c ∈ item.Link.data, urlPlain c = true) →
          ∃ author body : String, FormatContent U none item =
            (fragment item.Link item.Title author body, none)) := by
  refine ⟨⟨_, _, FormatContent_none U item⟩, ?_⟩
  intro ht hsafe hlink
  have hmain := FormatContent_none U item
  have h1 : urlFilter U item.Link = item.Link := by simp [urlFilter, hsafe]
  have h2 : urlNormalizer item.Link = item.Link := by
    unfold urlNormalizer
    rw [processURL_plain _ hlink]
  have h3 : attrEscaper item.Link = item.Link :=
    htmlReplacer_clean _ (fun c hc => not_special_of_urlPlain c (hlink c hc))
  rw [h1, h2, h3, htmlReplacer_clean _ ht] at hmain
  exact ⟨_, _, hmain⟩

/-- C6, the specification's first example: link "http://x" and title "Hello"
appear unchanged. -/
theorem link_title_escaped_witness :
    (∀ c ∈ helloItem.Title.data, c ∉ htmlSpecial)
      ∧ isSafeURL UnicodeTables.ascii helloItem.Link = true
      ∧ (∀ c ∈ helloItem.Link.data, urlPlain c = true)
      ∧ ∃ author body : String, FormatContent UnicodeTables.ascii none helloItem =
          (fragment helloItem.Link helloItem.Title author body, none) :=
  ⟨by decide, by decide, by decide,
    (link_title_escaped UnicodeTables.ascii helloItem).2 (by decide) (by decide) (by decide)⟩

/-! ## `NewMessage` -/

theorem NewMessage_result (U : UnicodeTables) (cfg : Config) (lib : BuildEnv) (item : Item)
    (date : Time) (hdate : item.PublishedParsed = some date) :
    (NewMessage U cfg lib item).result =
      match lib.failure with
      | some err => if lib.panics then .panicked else .error err
      | none => .ok (composed U cfg item date) := by
  unfold NewMessage BuildEnv.failure BuildEnv.panics
  rw [hdate]
  rcases hcw : lib.createWriter with _ | e1
  · rcases hcs : lib.createSingleText with _ | e2
    · rcases hex : lib.execute with _ | e3
      · simp [FormatContent, composed, sprintfSS]
      · simp [FormatContent]
    · simp
  · simp

/-- C7, counterexample. For an item without publication time `NewMessage`
panics at the dereference of line 81, before the From list is set and before
any header is handed to the mail library. -/
theorem from_address_not_without_date :
    helloItem.PublishedParsed = none
      ∧ (NewMessage UnicodeTables.ascii digestCfg okMail helloItem).result = .panicked
      ∧ ¬ ∃ h res, (NewMessage UnicodeTables.ascii digestCfg okMail helloItem).calls.head?
            = some (.createWriter h res) := by
  refine ⟨rfl, rfl, ?_⟩
  rintro ⟨h, res, hh⟩
  have hnil : (NewMessage UnicodeTables.ascii digestCfg okMail helloItem).calls = [] := rfl
  rw [hnil] at hh
  cases hh

/-- C7, as amended. For every item that has a publication time, and every
configuration and library outcome, the first call of `NewMessage` hands
`mail.CreateWriter` a header whose From list is the single address with
display name `Name + " " + Email` of the author when present and the
configured from-name when absent, and with the configured sender address in
both cases; a message it returns carries that header. -/
theorem from_address (U : UnicodeTables) (cfg : Config) (lib : BuildEnv) (item : Item)
    (date : Time) (hdate : item.PublishedParsed = some date) :
    ∃ h, (NewMessage U cfg lib item).calls.head? = some (.createWriter h lib.createWriter)
      ∧ h.From = [⟨match item.Author with
                    | some a => a.Name ++ " " ++ a.Email
                    | none => cfg.fromName, cfg.fromEmail⟩]
      ∧ ∀ msg, (NewMessage U cfg lib item).result = .ok msg → msg.header = h := by
  unfold NewMessage
  rw [hdate]
  rcases hcw : lib.createWriter with _ | e1
  · rcases hcs : lib.createSingleText with _ | e2
    · rcases hex : lib.execute with _ | e3
      · simp only [FormatContent]
        refine ⟨_, rfl, ?_, ?_⟩
        · simp [sprintfSS]
        · intro msg hmsg
          simp only [BuildResult.ok.injEq] at hmsg
          rw [← hmsg]
      · simp only [FormatContent]
        refine ⟨_, rfl, ?_, ?_⟩
        · simp [sprintfSS]
        · intro msg hmsg
          simp at hmsg
    · refine ⟨_, rfl, ?_, ?_⟩
      · simp [sprintfSS]
      · intro msg hmsg
        simp at hmsg
  · refine ⟨_, rfl, ?_, ?_⟩
    · simp [sprintfSS]
    · intro msg hmsg
      simp at hmsg

/-- C7, the specification's second example: no author and default from-name
"Digest" give the From display name "Digest". -/
theorem from_address_witness :
    anonItem.PublishedParsed = some 1700
      ∧ ∃ h, (NewMessage UnicodeTables.ascii digestCfg okMail anonItem).calls.head?
            = some (.createWriter h okMail.createWriter)
          ∧ h.From = [⟨"Digest", "me@x"⟩]
          ∧ ∀ msg, (NewMessage UnicodeTables.ascii digestCfg okMail anonItem).result = .ok msg →
              msg.header = h :=
  ⟨rfl, from_address UnicodeTables.ascii digestCfg okMail anonItem 1700 rfl⟩

/-! ## The loop body -/

theorem stamp_published (heap : Heap) (p : Ptr) (now : Time) :
    (AppendNewItemsViaIMAP.stamp heap p now p).PublishedParsed
      = some ((heap p).PublishedParsed.getD now) := by
  unfold AppendNewItemsViaIMAP.stamp
  cases h : (heap p).PublishedParsed with
  | none => simp
  | some t => simp [h]

theorem stamp_cases (heap : Heap) (p : Ptr) (now : Time) (q : Ptr) :
    AppendNewItemsViaIMAP.stamp heap p now q = heap q
      ∨ ((heap q).PublishedParsed = none ∧ q = p
          ∧ AppendNewItemsViaIMAP.stamp heap p now q
              = { heap q with PublishedParsed := some now }) := by
  unfold AppendNewItemsViaIMAP.stamp
  by_cases h : (heap p).PublishedParsed = none
  · by_cases hq : q = p
    · subst hq
      right
      simp [h]
    · left
      simp [h, Function.update_noteq hq]
  · left
    simp [h]

theorem stamp_keeps (heap : Heap) (p : Ptr) (now : Time) (q : Ptr) (t : Time)
    (h : (heap q).PublishedParsed = some t) :
    (AppendNewItemsViaIMAP.stamp heap p now q).PublishedParsed = some t := by
  rcases stamp_cases heap p now q with h1 | ⟨h1, _, _⟩
  · rw [h1, h]
  · rw [h] at h1
    cases h1

theorem composed_stamp (U : UnicodeTables) (cfg : Config) (heap : Heap) (p : Ptr)
    (now : Time) (q : Ptr) (date : Time) :
    composed U cfg (AppendNewItemsViaIMAP.stamp heap p now q) date
      = composed U cfg (heap q) date := by
  rcases stamp_cases heap p now q with h1 | ⟨_, _, h1⟩
  · rw [h1]
  · rw [h1]
    simp [composed, FormatContent]

theorem body_eq (U : UnicodeTables) (cfg : Config) (e : IterEnv) (entry : Entry)
    (heap : Heap) :
    AppendNewItemsViaIMAP.body U cfg e entry heap =
      (AppendNewItemsViaIMAP.stamp heap entry.Item e.now,
        (match e.mail.failure with
          | some _ => [.create (AppendNewItemsViaIMAP.folder U cfg entry.Folder) e.create]
          | none =>
            [.create (AppendNewItemsViaIMAP.folder U cfg entry.Folder) e.create,
             .append (AppendNewItemsViaIMAP.folder U cfg entry.Folder) []
               ((heap entry.Item).PublishedParsed.getD e.now)
               (composed U cfg (heap entry.Item)
                 ((heap entry.Item).PublishedParsed.getD e.now)) e.append]),
        e.leaves) := by
  have hpub := stamp_published heap entry.Item e.now
  have hNM := NewMessage_result U cfg e.mail
    (AppendNewItemsViaIMAP.stamp heap entry.Item e.now entry.Item) _ hpub
  unfold AppendNewItemsViaIMAP.body
  simp only [hNM, hpub, IterEnv.leaves]
  cases hf : e.mail.failure with
  | some err =>
    cases hp : e.mail.panics <;> simp
  | none =>
    cases ha : e.append with
    | some err => simp [composed_stamp]
    | none => simp [composed_stamp]

theorem loop_cons (U : UnicodeTables) (cfg : Config) (env : Nat → IterEnv) (k : Nat)
    (entry : Entry) (rest : List Entry) (heap : Heap) :
    AppendNewItemsViaIMAP.loop U cfg env k (entry :: rest) heap =
      match (env k).leaves with
      | some out =>
        (AppendNewItemsViaIMAP.stamp heap entry.Item (env k).now,
          (AppendNewItemsViaIMAP.body U cfg (env k) entry heap).2.1, out)
      | none =>
        ((AppendNewItemsViaIMAP.loop U cfg env (k + 1) rest
            (AppendNewItemsViaIMAP.stamp heap entry.Item (env k).now)).1,
          (AppendNewItemsViaIMAP.body U cfg (env k) entry heap).2.1 ++
            (AppendNewItemsViaIMAP.loop U cfg env (k + 1) rest
              (AppendNewItemsViaIMAP.stamp heap entry.Item (env k).now)).2.1,
          (AppendNewItemsViaIMAP.loop U cfg env (k + 1) rest
            (AppendNewItemsViaIMAP.stamp heap entry.Item (env k).now)).2.2) := by
  rw [AppendNewItemsViaIMAP.loop, body_eq]
  cases (env k).leaves <;> rfl

theorem failure_none (e : IterEnv) (h : e.failure = none) :
    e.mail.failure = none ∧ e.append = none := by
  unfold IterEnv.failure at h
  cases hm : e.mail.failure with
  | some err => rw [hm] at h; cases h
  | none => rw [hm] at h; exact ⟨rfl, h⟩

theorem leaves_of_failure_none (e : IterEnv) (h : e.failure = none) : e.leaves = none := by
  obtain ⟨hm, ha⟩ := failure_none e h
  simp [IterEnv.leaves, hm, ha]

theorem leaves_none (e : IterEnv) (h : e.leaves = none) :
    e.mail.failure = none ∧ e.append = none := by
  unfold IterEnv.leaves at h
  cases hm : e.mail.failure with
  | some err => rw [hm] at h; cases h
  | none =>
    rw [hm] at h
    cases ha : e.append with
    | some err => rw [ha] at h; cases h
    | none => exact ⟨rfl, rfl⟩

theorem leaves_some (e : IterEnv) (out : Outcome) (h : e.leaves = some out) :
    (∃ err, e.mail.failure = some err) ∨ (e.mail.failure = none ∧ ∃ err, e.append = some err) := by
  unfold IterEnv.leaves at h
  cases hm : e.mail.failure with
  | some err => exact Or.inl ⟨err, rfl⟩
  | none =>
    rw [hm] at h
    cases ha : e.append with
    | some err => exact Or.inr ⟨rfl, err, rfl⟩
    | none => rw [ha] at h; cases h

theorem body_calls_build_failed (U : UnicodeTables) (cfg : Config) (e : IterEnv)
    (entry : Entry) (heap : Heap) (err : Error) (h : e.mail.failure = some err) :
    (AppendNewItemsViaIMAP.body U cfg e entry heap).2.1 =
      [.create (AppendNewItemsViaIMAP.folder U cfg entry.Folder) e.create] := by
  rw [body_eq, h]

theorem body_calls_built (U : UnicodeTables) (cfg : Config) (e : IterEnv)
    (entry : Entry) (heap : Heap) (h : e.mail.failure = none) :
    (AppendNewItemsViaIMAP.body U cfg e entry heap).2.1 =
      [.create (AppendNewItemsViaIMAP.folder U cfg entry.Folder) e.create,
       .append (AppendNewItemsViaIMAP.folder U cfg entry.Folder) []
         ((heap entry.Item).PublishedParsed.getD e.now)
         (composed U cfg (heap entry.Item) ((heap entry.Item).PublishedParsed.getD e.now))
         e.append] := by
  rw [body_eq, h]

theorem body_calls_no_logout (U : UnicodeTables) (cfg : Config) (e : IterEnv) (entry : Entry)
    (heap : Heap) :
    ∀ c ∈ (AppendNewItemsViaIMAP.body U cfg e entry heap).2.1, c.isLogout = false := by
  rw [body_eq]
  cases e.mail.failure <;> simp [IMAPCall.isLogout]

theorem loop_no_logout (U : UnicodeTables) (cfg : Config) (env : Nat → IterEnv) :
    ∀ (l : List Entry) (k : Nat) (heap : Heap),
      ∀ c ∈ (AppendNewItemsViaIMAP.loop U cfg env k l heap).2.1, c.isLogout = false
  | [], k, heap => by simp [AppendNewItemsViaIMAP.loop]
  | entry :: rest, k, heap => by
    rw [loop_cons]
    cases hf : (env k).leaves with
    | some out => exact body_calls_no_logout U cfg (env k) entry heap
    | none =>
      have ih := loop_no_logout U cfg env rest (k + 1)
        (AppendNewItemsViaIMAP.stamp heap entry.Item (env k).now)
      intro c hc
      rcases List.mem_append.1 hc with h | h
      · exact body_calls_no_logout U cfg (env k) entry heap c h
      · exact ih c h

theorem run_opened (U : UnicodeTables) (cfg : Config) (env : Env) (items : List Entry)
    (heap : Heap) (hdial : env.dial = none) (hlogin : env.login = none) :
    AppendNewItemsViaIMAP U cfg env items heap =
      ⟨(AppendNewItemsViaIMAP.loop U cfg env.iter 0 items heap).1,
        [.dialTLS (cfg.host ++ ":" ++ toString cfg.port) none,
          .login cfg.username cfg.password none]
          ++ (AppendNewItemsViaIMAP.loop U cfg env.iter 0 items heap).2.1
          ++ [.logout env.logout],
        (AppendNewItemsViaIMAP.loop U cfg env.iter 0 items heap).2.2⟩ := by
  simp [AppendNewItemsViaIMAP, newIMAPClient, hdial, hlogin]

/-- C2. In every run whose dial and login both succeed, the trace of IMAP
calls ends with the `Logout` call and holds no other `Logout`: it is invoked
exactly once, after every `Create` and `Append` call, however the function
ends (it returns nil, it returns an error, or `NewMessage` panics and the
deferred call runs while the panic unwinds). -/
theorem logout_exactly_once (U : UnicodeTables) (cfg : Config) (env : Env)
    (items : List Entry) (heap : Heap) (hdial : env.dial = none) (hlogin : env.login = none) :
    ∃ calls, (AppendNewItemsViaIMAP U cfg env items heap).trace
        = calls ++ [.logout env.logout]
      ∧ (∀ c ∈ calls, c.isLogout = false)
      ∧ (calls ++ [IMAPCall.logout env.logout]).countP IMAPCall.isLogout = 1 := by
  rw [run_opened U cfg env items heap hdial hlogin]
  have h := loop_no_logout U cfg env.iter items 0 heap
  have hno : ∀ c ∈ [IMAPCall.dialTLS (cfg.host ++ ":" ++ toString cfg.port) none,
      IMAPCall.login cfg.username cfg.password none]
        ++ (AppendNewItemsViaIMAP.loop U cfg env.iter 0 items heap).2.1,
      c.isLogout = false := by
    intro c hc
    rcases List.mem_append.1 hc with h1 | h1
    · simp only [List.mem_cons, List.mem_singleton, List.not_mem_nil, or_false] at h1
      rcases h1 with h1 | h1 <;> rw [h1] <;> rfl
    · exact h c h1
  refine ⟨_, rfl, hno, ?_⟩
  rw [List.countP_append, List.countP_eq_zero.2 (fun c hc => by simp [hno c hc])]
  rfl

/-! ## Abort at the first failure -/

/-- C2, on the run of the fifth example, which returns an error. -/
theorem logout_exactly_once_witness :
    quotaEnv.dial = none ∧ quotaEnv.login = none
      ∧ (∃ calls, (AppendNewItemsViaIMAP UnicodeTables.ascii digestCfg quotaEnv
              [⟨0, "tech news"⟩, ⟨1, "b"⟩, ⟨2, "c"⟩] (fun _ => helloItem)).trace
            = calls ++ [.logout quotaEnv.logout]
          ∧ ∀ c ∈ calls, c.isLogout = false) :=
  ⟨rfl, rfl,
    (logout_exactly_once UnicodeTables.ascii digestCfg quotaEnv
      [⟨0, "tech news"⟩, ⟨1, "b"⟩, ⟨2, "c"⟩] (fun _ => helloItem) rfl rfl).imp
      fun _ h => ⟨h.1, h.2.1⟩⟩

/-! ## Folder creation is best effort -/

theorem body_calls_withCreate (U : UnicodeTables) (cfg : Config) (e : IterEnv)
    (c : Option Error) (entry : Entry) (heap : Heap) :
    appendCalls (AppendNewItemsViaIMAP.body U cfg { e with create := c } entry heap).2.1
      = appendCalls (AppendNewItemsViaIMAP.body U cfg e entry heap).2.1 := by
  rw [body_eq, body_eq]
  cases e.mail.failure <;> simp [appendCalls, IMAPCall.isAppend]

theorem loop_withCreate (U : UnicodeTables) (cfg : Config) (envf : Nat → IterEnv)
    (create : Nat → Option Error) :
    ∀ (l : List Entry) (k : Nat) (heap : Heap),
      (AppendNewItemsViaIMAP.loop U cfg (fun i => { envf i with create := create i }) k l heap).1
          = (AppendNewItemsViaIMAP.loop U cfg envf k l heap).1
        ∧ appendCalls (AppendNewItemsViaIMAP.loop U cfg
              (fun i => { envf i with create := create i }) k l heap).2.1
            = appendCalls (AppendNewItemsViaIMAP.loop U cfg envf k l heap).2.1
        ∧ (AppendNewItemsViaIMAP.loop U cfg
              (fun i => { envf i with create := create i }) k l heap).2.2
            = (AppendNewItemsViaIMAP.loop U cfg envf k l heap).2.2
  | [], k, heap => by simp [AppendNewItemsViaIMAP.loop]
  | entry :: rest, k, heap => by
    rw [loop_cons, loop_cons]
    have hf : ({ envf k with create := create k } : IterEnv).leaves = (envf k).leaves := rfl
    dsimp only
    rw [hf]
    cases hk : (envf k).leaves with
    | some err =>
      exact ⟨rfl, body_calls_withCreate U cfg (envf k) (create k) entry heap, rfl⟩
    | none =>
      obtain ⟨ih1, ih2, ih3⟩ := loop_withCreate U cfg envf create rest (k + 1)
        (AppendNewItemsViaIMAP.stamp heap entry.Item (envf k).now)
      refine ⟨ih1, ?_, ih3⟩
      have hb := body_calls_withCreate U cfg (envf k) (create k) entry heap
      simp only [appendCalls, List.filter_append] at hb ih2 ⊢
      rw [hb, ih2]

theorem loop_all_ok (U : UnicodeTables) (cfg : Config) (envf : Nat → IterEnv)
    (heap0 : Heap) :
    ∀ (l : List Entry) (k : Nat) (heap : Heap),
      (∀ p d, composed U cfg (heap p) d = composed U cfg (heap0 p) d) →
      (∀ i < l.length, (envf (k + i)).failure = none) →
      (AppendNewItemsViaIMAP.loop U cfg envf k l heap).2.2 = .returned none
        ∧ List.Forall₂
            (fun entry call => ∃ date, call =
              IMAPCall.append (AppendNewItemsViaIMAP.folder U cfg entry.Folder) [] date
                (composed U cfg (heap0 entry.Item) date) none)
            l (appendCalls (AppendNewItemsViaIMAP.loop U cfg envf k l heap).2.1)
  | [], k, heap => by
    intro _ _
    simp [AppendNewItemsViaIMAP.loop, appendCalls]
  | x :: xs, k, heap => by
    intro hc hok
    have h0 : (envf k).failure = none := by
      have := hok 0 (by simp)
      simpa using this
    obtain ⟨hm, ha⟩ := failure_none _ h0
    have hc1 : ∀ p d, composed U cfg
        (AppendNewItemsViaIMAP.stamp heap x.Item (envf k).now p) d
          = composed U cfg (heap0 p) d := by
      intro p d
      rw [composed_stamp, hc]
    have hok1 : ∀ i < xs.length, (envf (k + 1 + i)).failure = none := by
      intro i hi
      have := hok (i + 1) (by simp only [List.length_cons]; omega)
      rwa [show k + (i + 1) = k + 1 + i by omega] at this
    obtain ⟨ih1, ih2⟩ := loop_all_ok U cfg envf heap0 xs (k + 1)
      (AppendNewItemsViaIMAP.stamp heap x.Item (envf k).now) hc1 hok1
    rw [loop_cons, leaves_of_failure_none _ h0]
    dsimp only
    rw [body_calls_built U cfg _ x heap hm, ha]
    refine ⟨ih1, ?_⟩
    simp only [appendCalls, List.cons_append, List.nil_append, List.filter_cons,
      IMAPCall.isAppend, Bool.false_eq_true, if_false, if_true]
    exact List.Forall₂.cons ⟨_, by rw [hc]⟩ ih2

/-- C9. Replacing the outcomes of the `Create` calls by any others changes
neither how the run ends, nor the heap it leaves, nor its sequence of `Append`
calls (folders, timestamps, messages, outcomes).  In particular, when the
session opens and every build and `Append` succeeds, the run returns nil and
appends all the items, in order, whatever the `Create` calls report. -/
theorem create_outcomes_ignored (U : UnicodeTables) (cfg : Config) (env : Env)
    (create : Nat → Option Error) (items : List Entry) (heap : Heap) :
    (AppendNewItemsViaIMAP U cfg (env.withCreate create) items heap).outcome
        = (AppendNewItemsViaIMAP U cfg env items heap).outcome
      ∧ (AppendNewItemsViaIMAP U cfg (env.withCreate create) items heap).heap
        = (AppendNewItemsViaIMAP U cfg env items heap).heap
      ∧ appendCalls (AppendNewItemsViaIMAP U cfg (env.withCreate create) items heap).trace
        = appendCalls (AppendNewItemsViaIMAP U cfg env items heap).trace
      ∧ (env.dial = none → env.login = none →
          (∀ i < items.length, (env.iter i).failure = none) →
          (AppendNewItemsViaIMAP U cfg (env.withCreate create) items heap).outcome
              = .returned none
            ∧ List.Forall₂
                (fun entry call => ∃ date, call =
                  IMAPCall.append (AppendNewItemsViaIMAP.folder U cfg entry.Folder) [] date
                    (composed U cfg (heap entry.Item) date) none)
                items
                (appendCalls
                  (AppendNewItemsViaIMAP U cfg (env.withCreate create) items heap).trace)) := by
  have hsame : (AppendNewItemsViaIMAP U cfg (env.withCreate create) items heap).outcome
        = (AppendNewItemsViaIMAP U cfg env items heap).outcome
      ∧ (AppendNewItemsViaIMAP U cfg (env.withCreate create) items heap).heap
        = (AppendNewItemsViaIMAP U cfg env items heap).heap
      ∧ appendCalls (AppendNewItemsViaIMAP U cfg (env.withCreate create) items heap).trace
        = appendCalls (AppendNewItemsViaIMAP U cfg env items heap).trace := by
    obtain ⟨h1, h2, h3⟩ := loop_withCreate U cfg env.iter create items 0 heap
    unfold AppendNewItemsViaIMAP newIMAPClient Env.withCreate
    cases hd : env.dial with
    | some e => simp
    | none =>
      cases hl : env.login with
      | some e => simp
      | none =>
        simp only [appendCalls] at h2
        simp [h1, h3, appendCalls, List.filter_append, List.filter_cons, h2,
          IMAPCall.isAppend]
  refine ⟨hsame.1, hsame.2.1, hsame.2.2, ?_⟩
  intro hdial hlogin hok
  rw [hsame.1, hsame.2.2, run_opened U cfg env items heap hdial hlogin]
  obtain ⟨h1, h2⟩ := loop_all_ok U cfg env.iter heap items 0 heap (fun _ _ => rfl)
    (by simpa using hok)
  refine ⟨h1, ?_⟩
  simpa [appendCalls, List.filter_append, IMAPCall.isAppend] using h2

/-- C9, on three assignments in a world where every `Create` reports an
error and everything else succeeds: the run returns nil. -/
theorem create_outcomes_ignored_witness :
    calmEnv.dial = none ∧ calmEnv.login = none
      ∧ (∀ i < [(⟨0, "tech news"⟩ : Entry), ⟨1, "b"⟩, ⟨2, "c"⟩].length,
          (calmEnv.iter i).failure = none)
      ∧ (AppendNewItemsViaIMAP UnicodeTables.ascii digestCfg
            (calmEnv.withCreate fun _ => some "cannot create")
            [⟨0, "tech news"⟩, ⟨1, "b"⟩, ⟨2, "c"⟩] (fun _ => helloItem)).outcome
          = .returned none :=
  ⟨rfl, rfl, by decide,
    ((create_outcomes_ignored UnicodeTables.ascii digestCfg calmEnv
      (fun _ => some "cannot create") [⟨0, "tech news"⟩, ⟨1, "b"⟩, ⟨2, "c"⟩]
      (fun _ => helloItem)).2.2.2 rfl rfl (by decide)).1⟩

/-! ## The date of a delivered message -/

theorem loop_dates (U : UnicodeTables) (cfg : Config) (envf : Nat → IterEnv) :
    ∀ (l : List Entry) (k : Nat) (heap : Heap) (j : Nat) (call : IMAPCall),
      (appendCalls (AppendNewItemsViaIMAP.loop U cfg envf k l heap).2.1)[j]? = some call →
      ∃ entry date res, l[j]? = some entry
        ∧ call = IMAPCall.append (AppendNewItemsViaIMAP.folder U cfg entry.Folder) [] date
            (composed U cfg (heap entry.Item) date) res
        ∧ (∀ t, (heap entry.Item).PublishedParsed = some t → date = t)
        ∧ ((heap entry.Item).PublishedParsed = none →
            ∃ i, i ≤ j ∧ l[i]?.map Entry.Item = some entry.Item
              ∧ (∀ i', i' < i → l[i']?.map Entry.Item ≠ some entry.Item)
              ∧ date = (envf (k + i)).now)
  | [], k, heap, j, call => by
    intro h
    simp [AppendNewItemsViaIMAP.loop, appendCalls] at h
  | x :: rest, k, heap, j, call => by
    intro h
    have hhead : ∀ res, ∃ entry date res', (x :: rest)[0]? = some entry
        ∧ IMAPCall.append (AppendNewItemsViaIMAP.folder U cfg x.Folder) []
            ((heap x.Item).PublishedParsed.getD (envf k).now)
            (composed U cfg (heap x.Item) ((heap x.Item).PublishedParsed.getD (envf k).now))
            res
          = IMAPCall.append (AppendNewItemsViaIMAP.folder U cfg entry.Folder) [] date
            (composed U cfg (heap entry.Item) date) res'
        ∧ (∀ t, (heap entry.Item).PublishedParsed = some t → date = t)
        ∧ ((heap entry.Item).PublishedParsed = none →
            ∃ i, i ≤ 0 ∧ (x :: rest)[i]?.map Entry.Item = some entry.Item
              ∧ (∀ i', i' < i → (x :: rest)[i']?.map Entry.Item ≠ some entry.Item)
              ∧ date = (envf (k + i)).now) := by
      intro res
      refine ⟨x, _, res, by simp, rfl, ?_, ?_⟩
      · intro t ht
        rw [ht]
        rfl
      · intro hn
        refine ⟨0, le_refl _, by simp, ?_, ?_⟩
        · intro i' hi'
          exact absurd hi' (Nat.not_lt_zero _)
        · rw [hn]
          rfl
    rw [loop_cons] at h
    cases hf : (envf k).leaves with
    | some out =>
      rw [hf] at h
      dsimp only at h
      rcases leaves_some _ _ hf with ⟨err, hm⟩ | ⟨hm, err, ha⟩
      · rw [body_calls_build_failed U cfg _ x heap err hm] at h
        simp [appendCalls, IMAPCall.isAppend] at h
      · rw [body_calls_built U cfg _ x heap hm] at h
        simp only [appendCalls, List.filter_cons, IMAPCall.isAppend, Bool.false_eq_true,
          if_false, if_true, List.filter_nil] at h
        cases j with
        | zero =>
          simp only [List.getElem?_cons_zero, Option.some.injEq] at h
          rw [← h]
          exact hhead _
        | succ j' => simp at h
    | none =>
      rw [hf] at h
      dsimp only at h
      obtain ⟨hm, ha⟩ := leaves_none _ hf
      rw [body_calls_built U cfg _ x heap hm] at h
      simp only [appendCalls, List.cons_append, List.nil_append, List.filter_cons,
        IMAPCall.isAppend, Bool.false_eq_true, if_false, if_true] at h
      cases j with
      | zero =>
        simp only [List.getElem?_cons_zero, Option.some.injEq] at h
        rw [← h]
        exact hhead _
      | succ j' =>
        simp only [List.getElem?_cons_succ] at h
        obtain ⟨entry, date, res, hent, hcall, hsome, hnone⟩ :=
          loop_dates U cfg envf rest (k + 1)
            (AppendNewItemsViaIMAP.stamp heap x.Item (envf k).now) j' call h
        refine ⟨entry, date, res, by simpa using hent, ?_, ?_, ?_⟩
        · rw [hcall, composed_stamp]
        · intro t ht
          exact hsome t (stamp_keeps heap x.Item (envf k).now entry.Item t ht)
        · intro hn
          rcases stamp_cases heap x.Item (envf k).now entry.Item with hs | ⟨_, hq, hs⟩
          · have hne : x.Item ≠ entry.Item := by
              intro hxe
              have h1 := stamp_published heap x.Item (envf k).now
              rw [hxe] at h1 hs
              rw [hs, hn] at h1
              cases h1
            obtain ⟨i, hi, hat, hfirst, hd⟩ := hnone (by rw [hs]; exact hn)
            refine ⟨i + 1, by omega, by simpa using hat, ?_, ?_⟩
            · intro i' hi'
              cases i' with
              | zero =>
                simp only [List.getElem?_cons_zero, Option.map_some', ne_eq,
                  Option.some.injEq]
                exact hne
              | succ i'' =>
                simp only [List.getElem?_cons_succ]
                exact hfirst i'' (by omega)
            · rw [hd]
              congr 2
              omega
          · have hd : date = (envf k).now := hsome _ (by rw [hs])
            refine ⟨0, Nat.zero_le _, by simp [hq], ?_, by simpa using hd⟩
            intro i' hi'
            exact absurd hi' (Nat.not_lt_zero _)

/-- C8. In every run the `j`-th `Append` call is for the `j`-th assignment,
and the timestamp it passes is the Date header of the message it passes.
That timestamp is the item's publication time when the item has one at the
start of the run, and otherwise the clock reading taken at the first
assignment that carries this item, which is this assignment or an earlier
one. -/
theorem date_header_is_append_time (U : UnicodeTables) (cfg : Config) (env : Env)
    (items : List Entry) (heap : Heap) (j : Nat) (call : IMAPCall)
    (hcall : (appendCalls (AppendNewItemsViaIMAP U cfg env items heap).trace)[j]? = some call) :
    ∃ entry date msg res, items[j]? = some entry
      ∧ call = IMAPCall.append (AppendNewItemsViaIMAP.folder U cfg entry.Folder) [] date msg res
      ∧ msg = composed U cfg (heap entry.Item) date
      ∧ msg.header.Date = date
      ∧ (∀ t, (heap entry.Item).PublishedParsed = some t → date = t)
      ∧ ((heap entry.Item).PublishedParsed = none →
          ∃ i, i ≤ j ∧ items[i]?.map Entry.Item = some entry.Item
            ∧ (∀ i', i' < i → items[i']?.map Entry.Item ≠ some entry.Item)
            ∧ date = (env.iter i).now) := by
  have hloop : (appendCalls (AppendNewItemsViaIMAP.loop U cfg env.iter 0 items heap).2.1)[j]?
      = some call := by
    unfold AppendNewItemsViaIMAP newIMAPClient at hcall
    cases hd : env.dial with
    | some e =>
      rw [hd] at hcall
      simp [appendCalls, IMAPCall.isAppend] at hcall
    | none =>
      cases hl : env.login with
      | some e =>
        rw [hd, hl] at hcall
        simp [appendCalls, IMAPCall.isAppend] at hcall
      | none =>
        rw [hd, hl] at hcall
        simpa [appendCalls, List.filter_append, List.filter_cons, IMAPCall.isAppend]
          using hcall
  obtain ⟨entry, date, res, h1, h2, h3, h4⟩ := loop_dates U cfg env.iter items 0 heap j call hloop
  refine ⟨entry, date, _, res, h1, h2, rfl, rfl, h3, ?_⟩
  intro hn
  obtain ⟨i, hi, hat, hfirst, hd⟩ := h4 hn
  exact ⟨i, hi, hat, hfirst, by simpa using hd⟩

set_option maxRecDepth 100000 in
/-- C8, the specification's fourth example: an item without publication time,
processed when the clock reads 100, is appended with timestamp 100 and Date
header 100. -/
theorem date_header_is_append_time_witness :
    (appendCalls (AppendNewItemsViaIMAP UnicodeTables.ascii digestCfg calmEnv
          [⟨0, "tech news"⟩] (fun _ => helloItem)).trace)[0]?
        = some (.append "Feeds/Tech News" [] 100
            (composed UnicodeTables.ascii digestCfg helloItem 100) none)
      ∧ ∃ entry date msg res, [(⟨0, "tech news"⟩ : Entry)][0]? = some entry
          ∧ IMAPCall.append "Feeds/Tech News" [] 100
              (composed UnicodeTables.ascii digestCfg helloItem 100) none
            = IMAPCall.append (AppendNewItemsViaIMAP.folder UnicodeTables.ascii digestCfg
                entry.Folder) [] date msg res
          ∧ msg = composed UnicodeTables.ascii digestCfg ((fun _ => helloItem) entry.Item) date
          ∧ msg.header.Date = date
          ∧ (∀ t, ((fun _ => helloItem) entry.Item : Item).PublishedParsed = some t → date = t)
          ∧ (((fun _ => helloItem) entry.Item : Item).PublishedParsed = none →
              ∃ i, i ≤ 0 ∧ [(⟨0, "tech news"⟩ : Entry)][i]?.map Entry.Item = some entry.Item
                ∧ (∀ i', i' < i →
                    [(⟨0, "tech news"⟩ : Entry)][i']?.map Entry.Item ≠ some entry.Item)
                ∧ date = (calmEnv.iter i).now) :=
  ⟨by decide,
    date_header_is_append_time UnicodeTables.ascii digestCfg calmEnv [⟨0, "tech news"⟩]
      (fun _ => helloItem) 0 _ (by decide)⟩

end Feeds2Imap
